import Mathlib

/-!
# RTF grammar interface: token codes of `rtfGrammar.tab.h`

The header `TextConverters/RTF/rtfGrammar.tab.h` declares the token type
`enum yytokentype`, the value type `YYSTYPE` and the entry point `GSRTFparse`.
The first part of this development embeds the token type; the second part
models the parser behind `GSRTFparse`, whose body is not part of the header.
-/

namespace RTF

/-- The token type `enum yytokentype` of `rtfGrammar.tab.h` (lines 50-158), one constructor
per enumerator, in declaration order. -/
inductive yytokentype where
  | RTFtext
  | RTFstart
  | RTFansi
  | RTFmac
  | RTFpc
  | RTFpca
  | RTFignore
  | RTFinfo
  | RTFstylesheet
  | RTFfootnote
  | RTFheader
  | RTFfooter
  | RTFpict
  | RTFplain
  | RTFparagraph
  | RTFdefaultParagraph
  | RTFrow
  | RTFcell
  | RTFtabulator
  | RTFemdash
  | RTFendash
  | RTFemspace
  | RTFenspace
  | RTFbullet
  | RTFfield
  | RTFfldinst
  | RTFfldalt
  | RTFfldrslt
  | RTFflddirty
  | RTFfldedit
  | RTFfldlock
  | RTFfldpriv
  | RTFfttruetype
  | RTFlquote
  | RTFrquote
  | RTFldblquote
  | RTFrdblquote
  | RTFred
  | RTFgreen
  | RTFblue
  | RTFcolorbg
  | RTFcolorfg
  | RTFunderlinecolor
  | RTFcolortable
  | RTFfont
  | RTFfontSize
  | RTFNeXTGraphic
  | RTFNeXTGraphicWidth
  | RTFNeXTGraphicHeight
  | RTFNeXTHelpLink
  | RTFNeXTHelpMarker
  | RTFNeXTfilename
  | RTFNeXTmarkername
  | RTFNeXTlinkFilename
  | RTFNeXTlinkMarkername
  | RTFpaperWidth
  | RTFpaperHeight
  | RTFmarginLeft
  | RTFmarginRight
  | RTFmarginTop
  | RTFmarginButtom
  | RTFfirstLineIndent
  | RTFleftIndent
  | RTFrightIndent
  | RTFalignCenter
  | RTFalignJustified
  | RTFalignLeft
  | RTFalignRight
  | RTFlineSpace
  | RTFspaceAbove
  | RTFstyle
  | RTFbold
  | RTFitalic
  | RTFunderline
  | RTFunderlineDot
  | RTFunderlineDash
  | RTFunderlineDashDot
  | RTFunderlineDashDotDot
  | RTFunderlineDouble
  | RTFunderlineStop
  | RTFunderlineThick
  | RTFunderlineThickDot
  | RTFunderlineThickDash
  | RTFunderlineThickDashDot
  | RTFunderlineThickDashDotDot
  | RTFunderlineWord
  | RTFstrikethrough
  | RTFstrikethroughDouble
  | RTFunichar
  | RTFsubscript
  | RTFsuperscript
  | RTFtabstop
  | RTFfcharset
  | RTFfprq
  | RTFcpg
  | RTFansicpg
  | RTFOtherStatement
  | RTFfontListStart
  | RTFfamilyNil
  | RTFfamilyRoman
  | RTFfamilySwiss
  | RTFfamilyModern
  | RTFfamilyScript
  | RTFfamilyDecor
  | RTFfamilyTech
  | RTFfamilyBiDi
deriving DecidableEq, Repr

namespace yytokentype

/-- The integer value the header assigns to each enumerator (a C `int`). -/
def code : yytokentype → Int
  | RTFtext => 258
  | RTFstart => 259
  | RTFansi => 260
  | RTFmac => 261
  | RTFpc => 262
  | RTFpca => 263
  | RTFignore => 264
  | RTFinfo => 265
  | RTFstylesheet => 266
  | RTFfootnote => 267
  | RTFheader => 268
  | RTFfooter => 269
  | RTFpict => 270
  | RTFplain => 271
  | RTFparagraph => 272
  | RTFdefaultParagraph => 273
  | RTFrow => 274
  | RTFcell => 275
  | RTFtabulator => 276
  | RTFemdash => 277
  | RTFendash => 278
  | RTFemspace => 279
  | RTFenspace => 280
  | RTFbullet => 281
  | RTFfield => 282
  | RTFfldinst => 283
  | RTFfldalt => 284
  | RTFfldrslt => 285
  | RTFflddirty => 286
  | RTFfldedit => 287
  | RTFfldlock => 288
  | RTFfldpriv => 289
  | RTFfttruetype => 290
  | RTFlquote => 291
  | RTFrquote => 292
  | RTFldblquote => 293
  | RTFrdblquote => 294
  | RTFred => 295
  | RTFgreen => 296
  | RTFblue => 297
  | RTFcolorbg => 298
  | RTFcolorfg => 299
  | RTFunderlinecolor => 300
  | RTFcolortable => 301
  | RTFfont => 302
  | RTFfontSize => 303
  | RTFNeXTGraphic => 304
  | RTFNeXTGraphicWidth => 305
  | RTFNeXTGraphicHeight => 306
  | RTFNeXTHelpLink => 307
  | RTFNeXTHelpMarker => 308
  | RTFNeXTfilename => 309
  | RTFNeXTmarkername => 310
  | RTFNeXTlinkFilename => 311
  | RTFNeXTlinkMarkername => 312
  | RTFpaperWidth => 313
  | RTFpaperHeight => 314
  | RTFmarginLeft => 315
  | RTFmarginRight => 316
  | RTFmarginTop => 317
  | RTFmarginButtom => 318
  | RTFfirstLineIndent => 319
  | RTFleftIndent => 320
  | RTFrightIndent => 321
  | RTFalignCenter => 322
  | RTFalignJustified => 323
  | RTFalignLeft => 324
  | RTFalignRight => 325
  | RTFlineSpace => 326
  | RTFspaceAbove => 327
  | RTFstyle => 328
  | RTFbold => 329
  | RTFitalic => 330
  | RTFunderline => 331
  | RTFunderlineDot => 332
  | RTFunderlineDash => 333
  | RTFunderlineDashDot => 334
  | RTFunderlineDashDotDot => 335
  | RTFunderlineDouble => 336
  | RTFunderlineStop => 337
  | RTFunderlineThick => 338
  | RTFunderlineThickDot => 339
  | RTFunderlineThickDash => 340
  | RTFunderlineThickDashDot => 341
  | RTFunderlineThickDashDotDot => 342
  | RTFunderlineWord => 343
  | RTFstrikethrough => 344
  | RTFstrikethroughDouble => 345
  | RTFunichar => 346
  | RTFsubscript => 347
  | RTFsuperscript => 348
  | RTFtabstop => 349
  | RTFfcharset => 350
  | RTFfprq => 351
  | RTFcpg => 352
  | RTFansicpg => 353
  | RTFOtherStatement => 354
  | RTFfontListStart => 355
  | RTFfamilyNil => 356
  | RTFfamilyRoman => 357
  | RTFfamilySwiss => 358
  | RTFfamilyModern => 359
  | RTFfamilyScript => 360
  | RTFfamilyDecor => 361
  | RTFfamilyTech => 362
  | RTFfamilyBiDi => 363

/-- The identifier of each enumerator, as spelled in the header. -/
def name : yytokentype → String
  | RTFtext => "RTFtext"
  | RTFstart => "RTFstart"
  | RTFansi => "RTFansi"
  | RTFmac => "RTFmac"
  | RTFpc => "RTFpc"
  | RTFpca => "RTFpca"
  | RTFignore => "RTFignore"
  | RTFinfo => "RTFinfo"
  | RTFstylesheet => "RTFstylesheet"
  | RTFfootnote => "RTFfootnote"
  | RTFheader => "RTFheader"
  | RTFfooter => "RTFfooter"
  | RTFpict => "RTFpict"
  | RTFplain => "RTFplain"
  | RTFparagraph => "RTFparagraph"
  | RTFdefaultParagraph => "RTFdefaultParagraph"
  | RTFrow => "RTFrow"
  | RTFcell => "RTFcell"
  | RTFtabulator => "RTFtabulator"
  | RTFemdash => "RTFemdash"
  | RTFendash => "RTFendash"
  | RTFemspace => "RTFemspace"
  | RTFenspace => "RTFenspace"
  | RTFbullet => "RTFbullet"
  | RTFfield => "RTFfield"
  | RTFfldinst => "RTFfldinst"
  | RTFfldalt => "RTFfldalt"
  | RTFfldrslt => "RTFfldrslt"
  | RTFflddirty => "RTFflddirty"
  | RTFfldedit => "RTFfldedit"
  | RTFfldlock => "RTFfldlock"
  | RTFfldpriv => "RTFfldpriv"
  | RTFfttruetype => "RTFfttruetype"
  | RTFlquote => "RTFlquote"
  | RTFrquote => "RTFrquote"
  | RTFldblquote => "RTFldblquote"
  | RTFrdblquote => "RTFrdblquote"
  | RTFred => "RTFred"
  | RTFgreen => "RTFgreen"
  | RTFblue => "RTFblue"
  | RTFcolorbg => "RTFcolorbg"
  | RTFcolorfg => "RTFcolorfg"
  | RTFunderlinecolor => "RTFunderlinecolor"
  | RTFcolortable => "RTFcolortable"
  | RTFfont => "RTFfont"
  | RTFfontSize => "RTFfontSize"
  | RTFNeXTGraphic => "RTFNeXTGraphic"
  | RTFNeXTGraphicWidth => "RTFNeXTGraphicWidth"
  | RTFNeXTGraphicHeight => "RTFNeXTGraphicHeight"
  | RTFNeXTHelpLink => "RTFNeXTHelpLink"
  | RTFNeXTHelpMarker => "RTFNeXTHelpMarker"
  | RTFNeXTfilename => "RTFNeXTfilename"
  | RTFNeXTmarkername => "RTFNeXTmarkername"
  | RTFNeXTlinkFilename => "RTFNeXTlinkFilename"
  | RTFNeXTlinkMarkername => "RTFNeXTlinkMarkername"
  | RTFpaperWidth => "RTFpaperWidth"
  | RTFpaperHeight => "RTFpaperHeight"
  | RTFmarginLeft => "RTFmarginLeft"
  | RTFmarginRight => "RTFmarginRight"
  | RTFmarginTop => "RTFmarginTop"
  | RTFmarginButtom => "RTFmarginButtom"
  | RTFfirstLineIndent => "RTFfirstLineIndent"
  | RTFleftIndent => "RTFleftIndent"
  | RTFrightIndent => "RTFrightIndent"
  | RTFalignCenter => "RTFalignCenter"
  | RTFalignJustified => "RTFalignJustified"
  | RTFalignLeft => "RTFalignLeft"
  | RTFalignRight => "RTFalignRight"
  | RTFlineSpace => "RTFlineSpace"
  | RTFspaceAbove => "RTFspaceAbove"
  | RTFstyle => "RTFstyle"
  | RTFbold => "RTFbold"
  | RTFitalic => "RTFitalic"
  | RTFunderline => "RTFunderline"
  | RTFunderlineDot => "RTFunderlineDot"
  | RTFunderlineDash => "RTFunderlineDash"
  | RTFunderlineDashDot => "RTFunderlineDashDot"
  | RTFunderlineDashDotDot => "RTFunderlineDashDotDot"
  | RTFunderlineDouble => "RTFunderlineDouble"
  | RTFunderlineStop => "RTFunderlineStop"
  | RTFunderlineThick => "RTFunderlineThick"
  | RTFunderlineThickDot => "RTFunderlineThickDot"
  | RTFunderlineThickDash => "RTFunderlineThickDash"
  | RTFunderlineThickDashDot => "RTFunderlineThickDashDot"
  | RTFunderlineThickDashDotDot => "RTFunderlineThickDashDotDot"
  | RTFunderlineWord => "RTFunderlineWord"
  | RTFstrikethrough => "RTFstrikethrough"
  | RTFstrikethroughDouble => "RTFstrikethroughDouble"
  | RTFunichar => "RTFunichar"
  | RTFsubscript => "RTFsubscript"
  | RTFsuperscript => "RTFsuperscript"
  | RTFtabstop => "RTFtabstop"
  | RTFfcharset => "RTFfcharset"
  | RTFfprq => "RTFfprq"
  | RTFcpg => "RTFcpg"
  | RTFansicpg => "RTFansicpg"
  | RTFOtherStatement => "RTFOtherStatement"
  | RTFfontListStart => "RTFfontListStart"
  | RTFfamilyNil => "RTFfamilyNil"
  | RTFfamilyRoman => "RTFfamilyRoman"
  | RTFfamilySwiss => "RTFfamilySwiss"
  | RTFfamilyModern => "RTFfamilyModern"
  | RTFfamilyScript => "RTFfamilyScript"
  | RTFfamilyDecor => "RTFfamilyDecor"
  | RTFfamilyTech => "RTFfamilyTech"
  | RTFfamilyBiDi => "RTFfamilyBiDi"

/-- Every enumerator of the header, in declaration order. -/
def all : List yytokentype :=
  [RTFtext, RTFstart, RTFansi, RTFmac,
   RTFpc, RTFpca, RTFignore, RTFinfo,
   RTFstylesheet, RTFfootnote, RTFheader, RTFfooter,
   RTFpict, RTFplain, RTFparagraph, RTFdefaultParagraph,
   RTFrow, RTFcell, RTFtabulator, RTFemdash,
   RTFendash, RTFemspace, RTFenspace, RTFbullet,
   RTFfield, RTFfldinst, RTFfldalt, RTFfldrslt,
   RTFflddirty, RTFfldedit, RTFfldlock, RTFfldpriv,
   RTFfttruetype, RTFlquote, RTFrquote, RTFldblquote,
   RTFrdblquote, RTFred, RTFgreen, RTFblue,
   RTFcolorbg, RTFcolorfg, RTFunderlinecolor, RTFcolortable,
   RTFfont, RTFfontSize, RTFNeXTGraphic, RTFNeXTGraphicWidth,
   RTFNeXTGraphicHeight, RTFNeXTHelpLink, RTFNeXTHelpMarker, RTFNeXTfilename,
   RTFNeXTmarkername, RTFNeXTlinkFilename, RTFNeXTlinkMarkername, RTFpaperWidth,
   RTFpaperHeight, RTFmarginLeft, RTFmarginRight, RTFmarginTop,
   RTFmarginButtom, RTFfirstLineIndent, RTFleftIndent, RTFrightIndent,
   RTFalignCenter, RTFalignJustified, RTFalignLeft, RTFalignRight,
   RTFlineSpace, RTFspaceAbove, RTFstyle, RTFbold,
   RTFitalic, RTFunderline, RTFunderlineDot, RTFunderlineDash,
   RTFunderlineDashDot, RTFunderlineDashDotDot, RTFunderlineDouble, RTFunderlineStop,
   RTFunderlineThick, RTFunderlineThickDot, RTFunderlineThickDash, RTFunderlineThickDashDot,
   RTFunderlineThickDashDotDot, RTFunderlineWord, RTFstrikethrough, RTFstrikethroughDouble,
   RTFunichar, RTFsubscript, RTFsuperscript, RTFtabstop,
   RTFfcharset, RTFfprq, RTFcpg, RTFansicpg,
   RTFOtherStatement, RTFfontListStart, RTFfamilyNil, RTFfamilyRoman,
   RTFfamilySwiss, RTFfamilyModern, RTFfamilyScript, RTFfamilyDecor,
   RTFfamilyTech, RTFfamilyBiDi]

/-- Decoding of an integer token code: the enumerator of the header with that value, if any. -/
def ofCode? (n : Int) : Option yytokentype :=
  all.find? (fun t => t.code == n)

/-- Whether the identifier of an enumerator starts with the given text. -/
def hasPrefix (p : String) (t : yytokentype) : Bool :=
  p.toList.isPrefixOf t.name.toList

/-- The part of an enumerator's identifier after its first `k` characters, in lower case. -/
def suffixLower (k : Nat) (t : yytokentype) : List Char :=
  (t.name.toList.drop k).map Char.toLower

end yytokentype

/-- Code `0`: the value a Bison scanner returns at end of input. The header starts its named
codes at 258 and does not list the reserved ones. -/
def YYEOF : Int := 0

/-- Code `256`: reserved by Bison for the `error` token. -/
def YYerror : Int := 256

/-- Code `257`: reserved by Bison for an undefined token. -/
def YYUNDEF : Int := 257

/-- The byte value of the group opener, returned by the scanner as itself. -/
def groupOpenByte : Int := 123

/-- The byte value of the group closer, returned by the scanner as itself. -/
def groupCloseByte : Int := 125

/-- An integer scanner result that is a single-byte character code. -/
def isLiteralByte (n : Int) : Bool :=
  decide (0 ≤ n) && decide (n ≤ 255)

/-- An integer scanner result that is the code of a named token of the header. -/
def isNamedToken (n : Int) : Bool :=
  (yytokentype.ofCode? n).isSome

/-- Modelled from the spec: the family class of a Font Table Entry (section 3,
"nil/roman/swiss/modern/script/decor/tech/bidi"); the header only has the token codes. -/
inductive FamilyClass where
  | nil
  | roman
  | swiss
  | modern
  | script
  | decor
  | tech
  | bidi
deriving DecidableEq, Repr

namespace FamilyClass

/-- The word the spec uses for each family class. -/
def word : FamilyClass → String
  | nil => "nil"
  | roman => "roman"
  | swiss => "swiss"
  | modern => "modern"
  | script => "script"
  | decor => "decor"
  | tech => "tech"
  | bidi => "bidi"

/-- The token of the header that stands for each family class. -/
def token : FamilyClass → yytokentype
  | nil => .RTFfamilyNil
  | roman => .RTFfamilyRoman
  | swiss => .RTFfamilySwiss
  | modern => .RTFfamilyModern
  | script => .RTFfamilyScript
  | decor => .RTFfamilyDecor
  | tech => .RTFfamilyTech
  | bidi => .RTFfamilyBiDi

end FamilyClass

/-- Modelled from the spec: the four flags of a Field (section 3,
"flags: dirty/locked/private/edit-enabled"). -/
inductive FieldFlag where
  | dirty
  | locked
  | priv
  | editEnabled
deriving DecidableEq, Repr

namespace FieldFlag

/-- The word the spec uses for each field flag. -/
def word : FieldFlag → String
  | dirty => "dirty"
  | locked => "locked"
  | priv => "private"
  | editEnabled => "edit-enabled"

/-- The token of the header that stands for each field flag. -/
def token : FieldFlag → yytokentype
  | dirty => .RTFflddirty
  | locked => .RTFfldlock
  | priv => .RTFfldpriv
  | editEnabled => .RTFfldedit

end FieldFlag

/-- Modelled from the spec: the sub-groups of a field group (section 4.5: "instruction,
(optional alternate instruction), and result"). -/
inductive FieldPart where
  | instruction
  | alternate
  | result
deriving DecidableEq, Repr

namespace FieldPart

/-- The word the spec uses for each field sub-group. -/
def word : FieldPart → String
  | instruction => "instruction"
  | alternate => "alternate instruction"
  | result => "result"

/-- The token of the header that opens each field sub-group. -/
def token : FieldPart → yytokentype
  | instruction => .RTFfldinst
  | alternate => .RTFfldalt
  | result => .RTFfldrslt

end FieldPart

/-! ## The parser behind `GSRTFparse`

The header only declares `int GSRTFparse (void *ctxt, void *lctxt)`; the grammar, the scanner and
the consumer are not part of it. The definitions below model them from the specification. -/

/-- Modelled from the spec: the AttributeSnapshot of section 3, the inheritable character and
paragraph formatting state (the parser's own snapshot type is not in the header). -/
structure AttributeSnapshot where
  bold : Bool := false
  italic : Bool := false
  underline : Nat := 0
  strikethrough : Nat := 0
  script : Int := 0
  fontIndex : Nat := 0
  fontSize : Nat := 0
  fgColor : Nat := 0
  bgColor : Nat := 0
  ulColor : Nat := 0
  alignment : Nat := 0
  firstLineIndent : Int := 0
  leftIndent : Int := 0
  rightIndent : Int := 0
  lineSpacing : Int := 0
  spaceAbove : Int := 0
  tabStops : List Int := []
deriving DecidableEq, Repr

/-- Modelled from the spec: the error kinds of section 7. `MissingStart` is the "hard parse error"
of section 6 for an absent document-start control word, for which section 7 names no kind. -/
inductive ParseError where
  | MalformedToken
  | UnbalancedGroup
  | UnknownDestination
  | UndefinedResourceReference
  | TruncatedPayload
  | MissingStart
deriving DecidableEq, Repr

/-- Modelled from the spec: the Scope Stack of section 3, a last-in-first-out sequence of
snapshots; the head of the list is the top. -/
abbrev ScopeStack := List AttributeSnapshot

namespace ScopeStack

/-- Modelled from the spec: `push()` of section 4.2, "duplicate the top snapshot, or a default
snapshot if empty". -/
def push : ScopeStack → ScopeStack
  | [] => [{}]
  | top :: rest => top :: top :: rest

/-- Modelled from the spec: `pop()` of section 4.2, "discard the top, restoring the prior
snapshot; error if empty". -/
def pop : ScopeStack → Except ParseError ScopeStack
  | [] => .error .UnbalancedGroup
  | _ :: rest => .ok rest

/-- Modelled from the spec: read access of `current()` (section 4.2); with no open group the
default snapshot is in effect. -/
def current : ScopeStack → AttributeSnapshot
  | [] => {}
  | top :: _ => top

/-- Modelled from the spec: write access of `current()` (section 4.2): the mutation is applied to
the top snapshot and to no other. -/
def mutate (f : AttributeSnapshot → AttributeSnapshot) : ScopeStack → ScopeStack
  | [] => []
  | top :: rest => f top :: rest

end ScopeStack

/-- Modelled from the spec: the Token of section 3. The "parameter present" flag and the integer
parameter of a control word are one `Option Int`. -/
inductive Token where
  | ControlWord (name : String) (param : Option Int)
  | GroupOpen
  | GroupClose
  | TextRun (bytes : List Char)
  | EscapedChar (byte : Char)
deriving DecidableEq, Repr

/-- Modelled from the spec: the states of the dispatch engine (section 4.4). -/
inductive State where
  | Preamble
  | Body
  | InFontTable
  | InColorTable
  | InStylesheet
  | InInfo
  | InField
  | InGraphic
  | Done
deriving DecidableEq, Repr

/-- Modelled from the spec: the sub-states of `Body` (section 4.4), each entered by the opening
control word of its group. -/
def State.isSub : State → Bool
  | .InFontTable => true
  | .InColorTable => true
  | .InStylesheet => true
  | .InInfo => true
  | .InField => true
  | .InGraphic => true
  | _ => false

/-- Modelled from the spec: an entry of the Color Table (section 3), a (red, green, blue)
triple. -/
structure Color where
  red : Nat := 0
  green : Nat := 0
  blue : Nat := 0
deriving DecidableEq, Repr

/-- Modelled from the spec: the three components of a color-table entry (section 3). -/
inductive Channel where
  | red
  | green
  | blue
deriving DecidableEq, Repr

/-- Modelled from the spec: the tagged action variants of the directive table (sections 4.4 and
9), with the document-start word, the Unicode escape, its skip count and the color components
as variants of their own. -/
inductive Directive where
  | Start
  | MutateChar (f : Option Int → AttributeSnapshot → AttributeSnapshot)
  | MutateParagraph (f : Option Int → AttributeSnapshot → AttributeSnapshot)
  | EmitSpecial (codePoint : Nat)
  | Unicode
  | SkipCount
  | EnterSubstate (s : State)
  | ColorChannel (c : Channel)
  | Ignore

/-- Modelled from the spec: the fixed directive table of section 4.4, from the name of a control
word to its directive, `none` for an unrecognized word. The table itself is not in the header;
the parser below takes it as an argument. -/
abbrev DirectiveTable := String → Option Directive

/-- Modelled from the spec: a Run of the Document Tree (section 3), its text as code points with
the snapshot at emission time. -/
structure Run where
  text : List Nat
  attrs : AttributeSnapshot
deriving DecidableEq, Repr

/-- Modelled from the spec: the parser context of section 9, the state of the dispatch engine
with the scope stack, the color table and the runs built so far. Paragraph, table, field and
graphic nodes, and the font table and stylesheet, are not modelled. -/
structure Parser where
  state : State := .Preamble
  stack : ScopeStack := []
  afterOpen : Bool := false
  subDepth : Nat := 0
  skipCount : Nat := 1
  pendingSkip : Nat := 0
  colors : List Color := []
  curColor : Color := {}
  doc : List Run := []
deriving DecidableEq, Repr

namespace Parser

/-- Modelled from the spec: the parser before the first token: `Preamble`, empty scope stack,
fallback skip count one (section 4.4, "default one"). -/
def init : Parser := {}

/-- Modelled from the spec: the depth of the Scope Stack (sections 3 and 8). -/
def depth (p : Parser) : Int := p.stack.length

/-- Modelled from the spec: the Document Builder appends a run with "the currently active
attribute snapshot" (section 2). -/
def emit (p : Parser) (text : List Nat) : Parser :=
  { p with doc := p.doc ++ [{ text := text, attrs := p.stack.current }] }

/-- Modelled from the spec: a color component directive sets one component of the color-table
entry being read (section 8, `\red255\green0\blue0`). -/
def setChannel (c : Channel) (param : Option Int) (col : Color) : Color :=
  match c with
  | .red => { col with red := (param.getD 0).toNat }
  | .green => { col with green := (param.getD 0).toNat }
  | .blue => { col with blue := (param.getD 0).toNat }

/-- Modelled from the spec: one byte of text inside the color table (section 8): a semicolon
ends the entry being read, which is appended to the table. -/
def colorByte (p : Parser) (b : Char) : Parser :=
  if b = ';' then { p with colors := p.colors ++ [p.curColor], curColor := {} } else p

/-- Modelled from the spec: GroupOpen (section 4.2): push; a group opened after `Done` starts a
further top-level group. -/
def openGroup (p : Parser) : Parser :=
  { p with
    stack := p.stack.push
    state := if p.state = .Done then .Body else p.state
    afterOpen := true }

/-- Modelled from the spec: GroupClose (sections 4.2 and 4.4): pop, an error on the empty stack;
a sub-state is left on the close matching the open that entered it, and `Done` is reached
when the outermost group closes. -/
def closeGroup (p : Parser) : Except ParseError Parser :=
  match p.stack.pop with
  | .error e => .error e
  | .ok rest =>
    if p.state = .Preamble then .error .MissingStart
    else
      .ok { p with
            stack := rest
            state :=
              if rest.isEmpty then .Done
              else if p.state.isSub && decide (rest.length < p.subDepth) then .Body
              else p.state
            afterOpen := false }

/-- Modelled from the spec: text reaching the dispatch engine. In the color table it ends
entries; in the other sub-states it is table content and adds no run; in the body the pending
fallback characters of a Unicode escape are dropped and the rest is appended as a run. -/
def text (p : Parser) (bytes : List Char) : Parser :=
  let p := { p with afterOpen := false }
  if p.state = .InColorTable then bytes.foldl colorByte p
  else if p.state.isSub then p
  else
    let rest := bytes.drop p.pendingSkip
    let p := { p with pendingSkip := p.pendingSkip - bytes.length }
    if rest.isEmpty then p else p.emit (rest.map Char.toNat)

/-- Modelled from the spec: the dispatch rule of section 4.4 for a control word after the
preamble. An unrecognized word is ignored. -/
def dispatch (table : DirectiveTable) (p : Parser) (name : String) (param : Option Int) :
    Parser :=
  let q := { p with afterOpen := false }
  match table name with
  | none => q
  | some .Start => q
  | some .Ignore => q
  | some (.EnterSubstate s) =>
    if p.afterOpen && !p.state.isSub && s.isSub then
      { q with state := s, subDepth := p.stack.length }
    else q
  | some (.ColorChannel c) =>
    if p.state = .InColorTable then { q with curColor := setChannel c param p.curColor } else q
  | some (.MutateChar f) =>
    if p.state.isSub then q else { q with stack := p.stack.mutate (f param) }
  | some (.MutateParagraph f) =>
    if p.state.isSub then q else { q with stack := p.stack.mutate (f param) }
  | some (.EmitSpecial cp) =>
    if p.state.isSub then q else q.emit [cp]
  | some .Unicode =>
    if p.state.isSub then q
    else
      match param with
      | some c => if 0 ≤ c then { q.emit [c.toNat] with pendingSkip := p.skipCount } else q
      | none => q
  | some .SkipCount =>
    match param with
    | some n => { q with skipCount := n.toNat }
    | none => q

/-- Modelled from the spec: whether a token is the document-start control word (sections 4.4
and 6). -/
def isStart (table : DirectiveTable) : Token → Bool
  | .ControlWord name _ =>
    match table name with
    | some .Start => true
    | _ => false
  | _ => false

/-- Modelled from the spec: one step of the dispatch engine (section 4.4). Group delimiters act
on the scope stack; in `Preamble` only the document-start control word is accepted. `Done` is
the accepting state: a token that follows it is handled as in the body, so that a later excess
close or unclosed open is still an error. -/
def step (table : DirectiveTable) (p : Parser) (t : Token) : Except ParseError Parser :=
  match t with
  | .GroupClose => p.closeGroup
  | .GroupOpen => if p.state = .Preamble then .error .MissingStart else .ok p.openGroup
  | .ControlWord name param =>
    if p.state = .Preamble then
      if isStart table t then .ok { p with state := .Body } else .error .MissingStart
    else .ok (p.dispatch table name param)
  | .TextRun bytes =>
    if p.state = .Preamble then .error .MissingStart else .ok (p.text bytes)
  | .EscapedChar b =>
    if p.state = .Preamble then .error .MissingStart else .ok (p.text [b])

/-- Modelled from the spec: the tokens are fed to the dispatch engine one at a time (section 2);
the first error aborts the parse (section 7). -/
def run (table : DirectiveTable) : Parser → List Token → Except ParseError Parser
  | p, [] => .ok p
  | p, t :: ts =>
    match step table p t with
    | .error e => .error e
    | .ok q => run table q ts

/-- Modelled from the spec: end of input (sections 3, 6 and 7): without the start word the
parse fails, a group left open is an `UnbalancedGroup` error, and with every group closed the
parse is `Done`. -/
def finish (p : Parser) : Except ParseError Parser :=
  if p.state = .Preamble then .error .MissingStart
  else if p.stack.isEmpty then .ok { p with state := .Done }
  else .error .UnbalancedGroup

/-- The invariant of the engine: `Preamble` and `Done` never hold a snapshot on the scope
stack. -/
def Inv (p : Parser) : Prop :=
  (p.state = .Preamble → p.stack = []) ∧ (p.state = .Done → p.stack = [])

end Parser

/-- Modelled from the spec: the whole parse, `int GSRTFparse (void *ctxt, void *lctxt)` of the
header, whose body is not part of it. The tokens are what the scanner context delivers, the
result is the parser context at `Done` or the error that aborted the parse; on an error nothing
of the result built so far is kept. -/
def GSRTFparse (table : DirectiveTable) (tokens : List Token) : Except ParseError Parser :=
  match Parser.run table Parser.init tokens with
  | .error e => .error e
  | .ok p => Parser.finish p

/-- The opens minus the closes of a token sequence, an integer that a stream with an excess
close makes negative. -/
def netDepth : List Token → Int
  | [] => 0
  | .GroupOpen :: ts => netDepth ts + 1
  | .GroupClose :: ts => netDepth ts - 1
  | _ :: ts => netDepth ts

/-- Modelled from the spec: lookup in the Color Table (section 4.3), `none` being the
"undefined" sentinel. -/
def lookupColor (colors : List Color) (i : Nat) : Option Color :=
  colors.get? i

/-- Modelled from the spec: resolution of a color index (section 7): an undefined reference
defaults to index 0, "automatic". -/
def resolveColor (colors : List Color) (i : Nat) : Color :=
  match lookupColor colors i with
  | some c => c
  | none => (lookupColor colors 0).getD {}

/-- Modelled from the spec: the foreground color a run carries after resolution of its color
index (section 8). -/
def Run.foreground (colors : List Color) (r : Run) : Color :=
  resolveColor colors r.attrs.fgColor

/-! ## The tokenizer (section 4.1) -/

/-- Modelled from the spec: the state of the tokenizer of section 4.1 between two bytes: in raw
text, after a backslash, in the name of a control word, or in its integer parameter. -/
inductive Lex where
  | text (acc : List Char)
  | esc
  | word (name : List Char)
  | num (name : List Char) (neg : Bool) (value : Nat) (digits : Bool)
deriving DecidableEq, Repr

namespace Lex

/-- The byte of the group opener. -/
def lbrace : Char := Char.ofNat 123

/-- The byte of the group closer. -/
def rbrace : Char := Char.ofNat 125

/-- The byte that introduces a control word or an escape. -/
def backslash : Char := Char.ofNat 92

/-- Modelled from the spec: the raw text read so far becomes a TextRun (section 4.1); nothing
when there is none. -/
def flush (acc : List Char) : List Token :=
  if acc.isEmpty then [] else [.TextRun acc]

/-- The value of a decimal digit. -/
def digit (c : Char) : Nat := c.toNat - 48

/-- Modelled from the spec: the "decimal integer with sign" of a control word (section 4.1). -/
def signed (neg : Bool) (value : Nat) : Int :=
  if neg then -(value : Int) else (value : Int)

/-- Modelled from the spec: a byte scanned in raw text (section 4.1): a brace is a group
delimiter, a backslash starts a control word or an escape, any other byte is text "up to the
next backslash or brace". -/
def plain (acc : List Char) (c : Char) : List Token × Lex :=
  if c = lbrace then (flush acc ++ [.GroupOpen], .text [])
  else if c = rbrace then (flush acc ++ [.GroupClose], .text [])
  else if c = backslash then (flush acc, .esc)
  else ([], .text (acc ++ [c]))

/-- Modelled from the spec: the end of a control word at its delimiter (section 4.1): "a single
space is swallowed, any other delimiter is left for re-scanning". -/
def endWord (name : List Char) (param : Option Int) (c : Char) : List Token × Lex :=
  if c = ' ' then ([.ControlWord (String.mk name) param], .text [])
  else
    let r := plain [] c
    (.ControlWord (String.mk name) param :: r.1, r.2)

/-- Modelled from the spec: the tokenizer of section 4.1 at one byte. After a backslash a letter
starts a control word, a brace or backslash is an escaped literal, anything else is an invalid
escape. The raw-byte mode for binary payloads is not modelled. -/
def next : Lex → Char → Except ParseError (List Token × Lex)
  | .text acc, c => .ok (plain acc c)
  | .esc, c =>
    if c.isAlpha then .ok ([], .word [c])
    else if c = lbrace || c = rbrace || c = backslash then .ok ([.EscapedChar c], .text [])
    else .error .MalformedToken
  | .word name, c =>
    if c.isAlpha then .ok ([], .word (name ++ [c]))
    else if c = '-' then .ok ([], .num name true 0 false)
    else if c.isDigit then .ok ([], .num name false (digit c) true)
    else .ok (endWord name none c)
  | .num name neg value digits, c =>
    if c.isDigit then .ok ([], .num name neg (10 * value + digit c) true)
    else if digits then .ok (endWord name (some (signed neg value)) c)
    else
      let r := plain ['-'] c
      .ok (.ControlWord (String.mk name) none :: r.1, r.2)

/-- Modelled from the spec: the tokens still due at the end of the input (section 4.1); a lone
backslash is an unterminated control word, a `MalformedToken` (section 7). -/
def last : Lex → Except ParseError (List Token)
  | .text acc => .ok (flush acc)
  | .esc => .error .MalformedToken
  | .word name => .ok [.ControlWord (String.mk name) none]
  | .num name neg value digits =>
    if digits then .ok [.ControlWord (String.mk name) (some (signed neg value))]
    else .ok [.ControlWord (String.mk name) none, .TextRun ['-']]

/-- Modelled from the spec: the bytes are scanned in order from a tokenizer state; the first
error aborts (sections 4.1 and 7). -/
def scan : Lex → List Char → Except ParseError (List Token)
  | s, [] => last s
  | s, c :: cs =>
    match next s c with
    | .error e => .error e
    | .ok (ts, s2) =>
      match scan s2 cs with
      | .error e => .error e
      | .ok rest => .ok (ts ++ rest)

end Lex

/-- Modelled from the spec: the Tokenizer of section 4.1, from the bytes of the stream to its
tokens. -/
def tokenize (input : String) : Except ParseError (List Token) :=
  Lex.scan (.text []) input.toList

/-- Modelled from the spec: the entries of the directive table for the control words the spec
spells out (`uc`, `u`, `colortbl`, `red`, `green`, `blue`, in its sections 4.4 and 8), with `rtf`
for the document-start control word and `cf` for the foreground color index. -/
def specTable : DirectiveTable := fun name =>
  if name = "rtf" then some .Start
  else if name = "uc" then some .SkipCount
  else if name = "u" then some .Unicode
  else if name = "colortbl" then some (.EnterSubstate .InColorTable)
  else if name = "red" then some (.ColorChannel .red)
  else if name = "green" then some (.ColorChannel .green)
  else if name = "blue" then some (.ColorChannel .blue)
  else if name = "cf" then
    some (.MutateChar (fun param a => { a with fgColor := (param.getD 0).toNat }))
  else none

/-- The body of a document just after its start word, inside one open group. -/
def inBody : Parser :=
  { state := .Body, stack := [{}] }

/-- Tokenize a fragment of a document body and run the dispatch engine over it. -/
def runFragment (table : DirectiveTable) (input : String) : Except ParseError Parser :=
  match tokenize input with
  | .error e => .error e
  | .ok tokens => Parser.run table inBody tokens

/-- The color table of a result; `none` on an error. -/
def colorsOf : Except ParseError Parser → Option (List Color)
  | .error _ => none
  | .ok p => some p.colors

/-- The tokens of one color-table entry: its three components and the closing semicolon. -/
def entryTokens (nr ng nb : String) (c : Color) : List Token :=
  [.ControlWord nr (some (c.red : Int)), .ControlWord ng (some (c.green : Int)),
   .ControlWord nb (some (c.blue : Int)), .TextRun [';']]

/-- The tokens of a sequence of color-table entries, in stream order. -/
def entriesTokens (nr ng nb : String) : List Color → List Token
  | [] => []
  | c :: cs => entryTokens nr ng nb c ++ entriesTokens nr ng nb cs

/-- The runs of a result, each with its text and its resolved foreground color; `none` on an
error. -/
def foregrounds : Except ParseError Parser → Option (List (List Nat × Color))
  | .error _ => none
  | .ok p => some (p.doc.map (fun r => (r.text, r.foreground p.colors)))

/-! ## Token codes: the facts read off the header -/

namespace yytokentype

theorem mem_all (t : yytokentype) : t ∈ all := by
  cases t <;> decide

theorem code_range (t : yytokentype) : 258 ≤ t.code ∧ t.code ≤ 363 := by
  cases t <;> decide

theorem ofCode?_code (t : yytokentype) : ofCode? t.code = some t := by
  cases t <;> rfl

theorem code_of_ofCode? {n : Int} {t : yytokentype} (h : ofCode? n = some t) : t.code = n := by
  have := List.find?_some h
  simpa using this

theorem code_injective : Function.Injective code := by
  intro a b h
  have ha := ofCode?_code a
  rw [h, ofCode?_code b] at ha
  exact (Option.some.inj ha).symm

theorem all_codes :
    all.map code = (List.range 106).map (fun i => (258 + (i : Nat) : Int)) := by
  decide

theorem exists_code {n : Int} (h1 : 258 ≤ n) (h2 : n ≤ 363) : ∃ t : yytokentype, t.code = n := by
  have hm : n ∈ all.map code := by
    rw [all_codes, List.mem_map]
    exact ⟨(n - 258).toNat, List.mem_range.mpr (by omega), by omega⟩
  obtain ⟨t, -, ht⟩ := List.mem_map.mp hm
  exact ⟨t, ht⟩

theorem ofCode?_eq_some_iff (n : Int) (t : yytokentype) : ofCode? n = some t ↔ t.code = n :=
  ⟨code_of_ofCode?, fun h => h ▸ ofCode?_code t⟩

theorem ofCode?_eq_none_of_outside {n : Int} (h : n < 258 ∨ 363 < n) : ofCode? n = none := by
  cases hn : ofCode? n with
  | none => rfl
  | some t =>
    have hc := code_of_ofCode? hn
    have hr := code_range t
    omega

end yytokentype

section TokenClaims

open yytokentype

/-- C6: the header has exactly eight tokens named `RTFfamily...`, they are the images of the eight
family classes of the spec under `FamilyClass.token`, each named after its class, the map from
family class to token code is injective, and no other token is a family token. -/
theorem family_tokens_correspond :
    all.filter (hasPrefix "RTFfamily") =
        [RTFfamilyNil, RTFfamilyRoman, RTFfamilySwiss, RTFfamilyModern,
         RTFfamilyScript, RTFfamilyDecor, RTFfamilyTech, RTFfamilyBiDi] ∧
      (all.filter (hasPrefix "RTFfamily")).length = 8 ∧
      Function.Injective (fun f : FamilyClass => f.token.code) ∧
      (∀ f : FamilyClass, suffixLower 9 f.token = f.word.toList) ∧
      (∀ t : yytokentype, hasPrefix "RTFfamily" t = true ↔ ∃ f : FamilyClass, f.token = t) ∧
      (∀ n : Int, (∃ f : FamilyClass, f.token.code = n) ↔ 356 ≤ n ∧ n ≤ 363) := by
  refine ⟨by decide, by decide, ?_, ?_, ?_, ?_⟩
  · intro a b h
    cases a <;> cases b <;> first | rfl | exact absurd h (by decide)
  · intro f; cases f <;> decide
  · intro t
    constructor
    · intro h
      cases t <;> first
        | exact absurd h (by decide)
        | exact ⟨.nil, rfl⟩ | exact ⟨.roman, rfl⟩ | exact ⟨.swiss, rfl⟩ | exact ⟨.modern, rfl⟩
        | exact ⟨.script, rfl⟩ | exact ⟨.decor, rfl⟩ | exact ⟨.tech, rfl⟩ | exact ⟨.bidi, rfl⟩
    · rintro ⟨f, rfl⟩; cases f <;> decide
  · intro n
    constructor
    · rintro ⟨f, rfl⟩; cases f <;> decide
    · rintro ⟨h1, h2⟩
      have h : n = 356 ∨ n = 357 ∨ n = 358 ∨ n = 359 ∨ n = 360 ∨ n = 361 ∨ n = 362 ∨ n = 363 := by
        omega
      rcases h with h | h | h | h | h | h | h | h <;> subst h
      · exact ⟨.nil, rfl⟩
      · exact ⟨.roman, rfl⟩
      · exact ⟨.swiss, rfl⟩
      · exact ⟨.modern, rfl⟩
      · exact ⟨.script, rfl⟩
      · exact ⟨.decor, rfl⟩
      · exact ⟨.tech, rfl⟩
      · exact ⟨.bidi, rfl⟩

/-- C7: the header has exactly seven tokens named `RTFfld...`: the four field-flag tokens, images
of the four field flags of the spec, and the three field sub-group tokens, images of instruction,
alternate instruction and result; each is named after its flag or sub-group, the seven codes are
pairwise distinct, and none of them is the code of the field opener `RTFfield`. -/
theorem field_tokens_correspond :
    all.filter (hasPrefix "RTFfld") =
        [RTFfldinst, RTFfldalt, RTFfldrslt, RTFflddirty, RTFfldedit, RTFfldlock, RTFfldpriv] ∧
      (List.map FieldFlag.token [.dirty, .locked, .priv, .editEnabled] =
        [RTFflddirty, RTFfldlock, RTFfldpriv, RTFfldedit]) ∧
      (List.map FieldPart.token [.instruction, .alternate, .result] =
        [RTFfldinst, RTFfldalt, RTFfldrslt]) ∧
      Function.Injective (fun f : FieldFlag => f.token.code) ∧
      Function.Injective (fun q : FieldPart => q.token.code) ∧
      (∀ (f : FieldFlag) (q : FieldPart), f.token.code ≠ q.token.code) ∧
      (∀ f : FieldFlag, f.token.code ≠ RTFfield.code) ∧
      (∀ q : FieldPart, q.token.code ≠ RTFfield.code) ∧
      (∀ f : FieldFlag, (suffixLower 6 f.token).isPrefixOf f.word.toList = true) ∧
      (∀ q : FieldPart, (suffixLower 6 q.token).isSublist q.word.toList = true) ∧
      (∀ t : yytokentype, hasPrefix "RTFfld" t = true ↔
        (∃ f : FieldFlag, f.token = t) ∨ (∃ q : FieldPart, q.token = t)) ∧
      (List.map code
          [RTFfldinst, RTFfldalt, RTFfldrslt, RTFflddirty, RTFfldedit, RTFfldlock, RTFfldpriv,
           RTFfield]).Nodup := by
  refine ⟨by decide, by decide, by decide, ?_, ?_, ?_, ?_, ?_, ?_, ?_, ?_, by decide⟩
  · intro a b h
    cases a <;> cases b <;> first | rfl | exact absurd h (by decide)
  · intro a b h
    cases a <;> cases b <;> first | rfl | exact absurd h (by decide)
  · intro f q; cases f <;> cases q <;> decide
  · intro f; cases f <;> decide
  · intro q; cases q <;> decide
  · intro f; cases f <;> decide
  · intro q; cases q <;> decide
  · intro t
    constructor
    · intro h
      cases t <;> first
        | exact absurd h (by decide)
        | exact Or.inl ⟨.dirty, rfl⟩ | exact Or.inl ⟨.locked, rfl⟩ | exact Or.inl ⟨.priv, rfl⟩
        | exact Or.inl ⟨.editEnabled, rfl⟩ | exact Or.inr ⟨.instruction, rfl⟩
        | exact Or.inr ⟨.alternate, rfl⟩ | exact Or.inr ⟨.result, rfl⟩
    · rintro (⟨f, rfl⟩ | ⟨q, rfl⟩)
      · cases f <;> decide
      · cases q <;> decide

/-- C8: the 106 enumerators of the header are pairwise distinct, their codes are the integers
258, 259, ..., 363 in declaration order (`RTFtext = 258`, `RTFfamilyBiDi = 363`), the code map is
a bijection from the token kinds onto that range, and decoding an integer succeeds exactly on
the code of a token and fails for every integer outside the range. -/
theorem token_codes_contiguous :
    all.length = 106 ∧ all.Nodup ∧ (∀ t : yytokentype, t ∈ all) ∧
      code RTFtext = 258 ∧ code RTFfamilyBiDi = 363 ∧
      all.map code = (List.range 106).map (fun i => (258 + (i : Nat) : Int)) ∧
      Function.Injective code ∧
      Set.BijOn code Set.univ (Set.Icc 258 363) ∧
      (∀ (n : Int) (t : yytokentype), ofCode? n = some t ↔ t.code = n) ∧
      (∀ n : Int, 258 ≤ n ∧ n ≤ 363 → ∃ t : yytokentype, ofCode? n = some t) ∧
      (∀ n : Int, n < 258 ∨ 363 < n → ofCode? n = none) := by
  refine ⟨by decide, by decide, mem_all, rfl, rfl, all_codes, code_injective,
    ⟨?_, ?_, ?_⟩, ofCode?_eq_some_iff, ?_, ?_⟩
  · intro t _
    exact code_range t
  · intro a _ b _ h
    exact code_injective h
  · rintro n ⟨h1, h2⟩
    obtain ⟨t, ht⟩ := exists_code h1 h2
    exact ⟨t, Set.mem_univ _, ht⟩
  · rintro n ⟨h1, h2⟩
    obtain ⟨t, ht⟩ := exists_code h1 h2
    exact ⟨t, (ofCode?_eq_some_iff n t).mpr ht⟩
  · intro n h
    exact ofCode?_eq_none_of_outside h

/-- C9: every named token code is greater than 257; it is therefore no single-byte character code
(0..255), in particular neither group delimiter byte (123, 125), and none of the reserved codes
for end of input (0), error (256) and undefined token (257); an integer scanner result is never
both a literal byte and a named token, and each named token is recognised as such. -/
theorem token_codes_above_reserved :
    (∀ t : yytokentype, 257 < t.code) ∧
      (∀ (t : yytokentype) (b : Int), 0 ≤ b → b ≤ 255 → t.code ≠ b) ∧
      (∀ t : yytokentype, t.code ≠ groupOpenByte ∧ t.code ≠ groupCloseByte) ∧
      (∀ t : yytokentype, t.code ≠ YYEOF ∧ t.code ≠ YYerror ∧ t.code ≠ YYUNDEF) ∧
      (∀ n : Int, ¬ (isLiteralByte n = true ∧ isNamedToken n = true)) ∧
      (∀ t : yytokentype, isNamedToken t.code = true ∧ isLiteralByte t.code = false) ∧
      (∀ b : Int, 0 ≤ b → b ≤ 255 → isLiteralByte b = true ∧ isNamedToken b = false) := by
  have hlow : ∀ t : yytokentype, 257 < t.code := fun t => by
    have := code_range t
    omega
  refine ⟨hlow, ?_, ?_, ?_, ?_, ?_, ?_⟩
  · intro t b _ hb
    have := hlow t
    omega
  · intro t
    have := hlow t
    simp only [groupOpenByte, groupCloseByte]
    omega
  · intro t
    have := hlow t
    simp only [YYEOF, YYerror, YYUNDEF]
    omega
  · rintro n ⟨hb, hn⟩
    simp only [isLiteralByte, Bool.and_eq_true, decide_eq_true_eq] at hb
    have hn2 : ofCode? n = none := ofCode?_eq_none_of_outside (by omega)
    simp [isNamedToken, hn2] at hn
  · intro t
    have := hlow t
    refine ⟨by simp [isNamedToken, ofCode?_code], ?_⟩
    simp only [isLiteralByte, Bool.and_eq_false_iff, decide_eq_false_iff_not]
    omega
  · intro b h0 h255
    refine ⟨by simp [isLiteralByte, h0, h255], ?_⟩
    simp [isNamedToken, ofCode?_eq_none_of_outside (Or.inl (by omega : b < 258))]

end TokenClaims

/-! ## The scope stack -/

namespace ScopeStack

theorem foldl_mutate_cons (fs : List (AttributeSnapshot → AttributeSnapshot))
    (top : AttributeSnapshot) (rest : ScopeStack) :
    ∃ top2, fs.foldl (fun st f => mutate f st) (top :: rest) = top2 :: rest := by
  induction fs generalizing top with
  | nil => exact ⟨top, rfl⟩
  | cons f fs ih => exact ih (f top)

theorem push_eq_cons (s : ScopeStack) : ∃ top, push s = top :: s := by
  cases s with
  | nil => exact ⟨{}, rfl⟩
  | cons a rest => exact ⟨a, rfl⟩

end ScopeStack

/-- C1: on every scope stack, `push`, then any sequence of mutations of the current (top) snapshot,
then `pop`, gives back the stack as it was before the push, top snapshot and every snapshot below
it; so does `push(); mutate(bold=true); pop()`, which leaves `bold` at its former value. -/
theorem push_mutate_pop_restores (s : ScopeStack)
    (fs : List (AttributeSnapshot → AttributeSnapshot)) :
    ScopeStack.pop (fs.foldl (fun st f => ScopeStack.mutate f st) (ScopeStack.push s)) = .ok s ∧
      ScopeStack.pop (ScopeStack.mutate (fun a => { a with bold := true }) (ScopeStack.push s))
        = .ok s ∧
      (∀ t, ScopeStack.pop
          (ScopeStack.mutate (fun a => { a with bold := true }) (ScopeStack.push s)) = .ok t →
        (ScopeStack.current t).bold = (ScopeStack.current s).bold) := by
  have key : ∀ gs : List (AttributeSnapshot → AttributeSnapshot),
      ScopeStack.pop (gs.foldl (fun st f => ScopeStack.mutate f st) (ScopeStack.push s))
        = .ok s := by
    intro gs
    obtain ⟨top, htop⟩ := ScopeStack.push_eq_cons s
    obtain ⟨top2, h2⟩ := ScopeStack.foldl_mutate_cons gs top s
    rw [htop, h2]
    rfl
  refine ⟨key fs, key [_], ?_⟩
  intro t ht
  have h := key [fun a => { a with bold := true }]
  simp only [List.foldl] at h
  rw [h] at ht
  cases ht
  rfl

/-! ## The dispatch engine: depth of the scope stack -/

namespace Parser

theorem foldl_colorByte_frame (bytes : List Char) (p : Parser) :
    (bytes.foldl colorByte p).stack = p.stack ∧ (bytes.foldl colorByte p).state = p.state := by
  induction bytes generalizing p with
  | nil => exact ⟨rfl, rfl⟩
  | cons b bs ih =>
    simp only [List.foldl]
    obtain ⟨h1, h2⟩ := ih (colorByte p b)
    rw [h1, h2]
    unfold colorByte
    split <;> exact ⟨rfl, rfl⟩

theorem text_frame (p : Parser) (bytes : List Char) :
    (p.text bytes).stack = p.stack ∧ (p.text bytes).state = p.state := by
  unfold text
  simp only
  split
  · exact foldl_colorByte_frame bytes _
  · split
    · exact ⟨rfl, rfl⟩
    · split <;> exact ⟨rfl, rfl⟩

theorem mutate_length (f : AttributeSnapshot → AttributeSnapshot) (s : ScopeStack) :
    (ScopeStack.mutate f s).length = s.length := by
  cases s <;> rfl

theorem push_length (s : ScopeStack) : (ScopeStack.push s).length = s.length + 1 := by
  cases s <;> rfl

theorem dispatch_frame (table : DirectiveTable) (p : Parser) (name : String)
    (param : Option Int) :
    (p.dispatch table name param).stack.length = p.stack.length ∧
      ((p.dispatch table name param).state = p.state ∨
        (p.dispatch table name param).state.isSub = true) := by
  unfold dispatch
  simp only
  split
  · exact ⟨rfl, Or.inl rfl⟩
  · exact ⟨rfl, Or.inl rfl⟩
  · exact ⟨rfl, Or.inl rfl⟩
  · split
    · rename_i h
      simp only [Bool.and_eq_true] at h
      exact ⟨rfl, Or.inr h.2⟩
    · exact ⟨rfl, Or.inl rfl⟩
  · split <;> exact ⟨rfl, Or.inl rfl⟩
  · split
    · exact ⟨rfl, Or.inl rfl⟩
    · exact ⟨mutate_length _ _, Or.inl rfl⟩
  · split
    · exact ⟨rfl, Or.inl rfl⟩
    · exact ⟨mutate_length _ _, Or.inl rfl⟩
  · split <;> exact ⟨rfl, Or.inl rfl⟩
  · split
    · exact ⟨rfl, Or.inl rfl⟩
    · split
      · split <;> exact ⟨rfl, Or.inl rfl⟩
      · exact ⟨rfl, Or.inl rfl⟩
  · split <;> exact ⟨rfl, Or.inl rfl⟩

theorem isSub_ne {s : State} (h : s.isSub = true) : s ≠ .Preamble ∧ s ≠ .Done := by
  cases s <;> simp [State.isSub] at h ⊢

theorem step_depth (table : DirectiveTable) (p q : Parser) (t : Token)
    (h : step table p t = .ok q) :
    (q.stack.length : Int) = p.stack.length + netDepth [t] := by
  cases t with
  | GroupClose =>
    simp only [step, closeGroup] at h
    cases hs : p.stack with
    | nil => simp [hs, ScopeStack.pop] at h
    | cons a rest =>
      simp only [hs, ScopeStack.pop] at h
      split at h
      · cases h
      · cases h
        simp [netDepth]
  | GroupOpen =>
    simp only [step] at h
    split at h
    · cases h
    · cases h
      simp [openGroup, push_length, netDepth]
  | ControlWord name param =>
    simp only [step] at h
    split at h
    · split at h
      · cases h; simp [netDepth]
      · cases h
    · cases h
      simp [(dispatch_frame table p name param).1, netDepth]
  | TextRun bytes =>
    simp only [step] at h
    split at h
    · cases h
    · cases h
      simp [(text_frame p bytes).1, netDepth]
  | EscapedChar b =>
    simp only [step] at h
    split at h
    · cases h
    · cases h
      simp [(text_frame p [b]).1, netDepth]

theorem step_inv (table : DirectiveTable) (p q : Parser) (t : Token) (hp : Inv p)
    (h : step table p t = .ok q) : Inv q ∧ q.state ≠ .Preamble := by
  cases t with
  | GroupClose =>
    simp only [step, closeGroup] at h
    cases hs : p.stack with
    | nil => simp [hs, ScopeStack.pop] at h
    | cons a rest =>
      simp only [hs, ScopeStack.pop] at h
      split at h
      · cases h
      · rename_i hpre
        have hdone : p.state ≠ .Done := fun hd => by
          have := hp.2 hd
          rw [hs] at this
          cases this
        cases h
        simp only [Inv]
        cases rest with
        | nil => simp
        | cons b rest2 =>
          simp only [List.isEmpty_cons, Bool.false_eq_true, if_false]
          split <;> simp [hpre, hdone]
  | GroupOpen =>
    simp only [step] at h
    split at h
    · cases h
    · rename_i hpre
      cases h
      simp only [Inv, openGroup]
      split <;> simp [hpre, *]
  | ControlWord name param =>
    simp only [step] at h
    split at h
    · split at h
      · cases h; simp [Inv]
      · cases h
    · rename_i hpre
      cases h
      obtain ⟨hl, hst⟩ := dispatch_frame table p name param
      rcases hst with hst | hst
      · refine ⟨⟨fun h1 => absurd (hst ▸ h1) hpre, fun h2 => ?_⟩, fun h1 => hpre (hst ▸ h1)⟩
        have := hp.2 (hst ▸ h2)
        rw [this] at hl
        exact List.length_eq_zero.mp hl
      · obtain ⟨n1, n2⟩ := isSub_ne hst
        exact ⟨⟨fun h1 => absurd h1 n1, fun h2 => absurd h2 n2⟩, n1⟩
  | TextRun bytes =>
    simp only [step] at h
    split at h
    · cases h
    · rename_i hpre
      cases h
      obtain ⟨h1, h2⟩ := text_frame p bytes
      simp only [Inv, h1, h2]
      exact ⟨⟨fun h => absurd h hpre, hp.2⟩, hpre⟩
  | EscapedChar b =>
    simp only [step] at h
    split at h
    · cases h
    · rename_i hpre
      cases h
      obtain ⟨h1, h2⟩ := text_frame p [b]
      simp only [Inv, h1, h2]
      exact ⟨⟨fun h => absurd h hpre, hp.2⟩, hpre⟩

theorem netDepth_cons (t : Token) (ts : List Token) :
    netDepth (t :: ts) = netDepth [t] + netDepth ts := by
  cases t <;> simp [netDepth] <;> omega

theorem run_depth (table : DirectiveTable) (toks : List Token) (p q : Parser)
    (h : run table p toks = .ok q) :
    (q.stack.length : Int) = p.stack.length + netDepth toks := by
  induction toks generalizing p with
  | nil =>
    simp only [run] at h
    cases h
    simp [netDepth]
  | cons t ts ih =>
    simp only [run] at h
    cases hs : step table p t with
    | error e => simp [hs] at h
    | ok r =>
      simp only [hs] at h
      rw [ih r h, step_depth table p r t hs, netDepth_cons t ts]
      omega

theorem run_inv (table : DirectiveTable) (toks : List Token) (p q : Parser) (hp : Inv p)
    (h : run table p toks = .ok q) : Inv q ∧ (toks ≠ [] → q.state ≠ .Preamble) := by
  induction toks generalizing p with
  | nil =>
    simp only [run] at h
    cases h
    exact ⟨hp, fun h => absurd rfl h⟩
  | cons t ts ih =>
    simp only [run] at h
    cases hs : step table p t with
    | error e => simp [hs] at h
    | ok r =>
      simp only [hs] at h
      obtain ⟨hr, hne⟩ := step_inv table p r t hp hs
      obtain ⟨hq, hq2⟩ := ih r hr h
      refine ⟨hq, fun _ => ?_⟩
      cases ts with
      | nil =>
        simp only [run] at h
        cases h
        exact hne
      | cons u us => exact hq2 (by simp)

theorem run_append (table : DirectiveTable) (a b : List Token) (p : Parser) :
    run table p (a ++ b) =
      match run table p a with
      | .error e => .error e
      | .ok q => run table q b := by
  induction a generalizing p with
  | nil => rfl
  | cons t ts ih =>
    simp only [List.cons_append, run]
    cases step table p t with
    | error e => rfl
    | ok r => exact ih r

theorem inv_init : Inv init := ⟨fun _ => rfl, fun _ => rfl⟩

end Parser

/-! ## Claims on the dispatch engine -/

section ParserClaims

open Parser

/-- C2: for every directive table and every token sequence the engine accepts so far, the depth of
the scope stack is the number of opens minus the number of closes and is never negative, and it
is 0 whenever the state is `Done`; an accepted parse ends in `Done` at depth 0; a group close
arriving at depth 0 makes the parse fail with `UnbalancedGroup`, and so does the end of input at
a depth above 0. -/
theorem depth_and_unbalanced_groups (table : DirectiveTable) :
    (∀ (toks : List Token) (p : Parser), run table init toks = .ok p →
        0 ≤ p.depth ∧ p.depth = netDepth toks ∧ (p.state = .Done → p.depth = 0)) ∧
      (∀ (toks : List Token) (p : Parser), GSRTFparse table toks = .ok p →
        p.state = .Done ∧ p.depth = 0 ∧ netDepth toks = 0) ∧
      (∀ (pre post : List Token) (p : Parser), run table init pre = .ok p → p.depth = 0 →
        GSRTFparse table (pre ++ .GroupClose :: post) = .error .UnbalancedGroup) ∧
      (∀ (toks : List Token) (p : Parser), run table init toks = .ok p → 0 < p.depth →
        GSRTFparse table toks = .error .UnbalancedGroup) := by
  have hdepth : ∀ (toks : List Token) (p : Parser), run table init toks = .ok p →
      p.depth = netDepth toks := by
    intro toks p h
    have := run_depth table toks init p h
    simpa [depth, init] using this
  refine ⟨?_, ?_, ?_, ?_⟩
  · intro toks p h
    refine ⟨by simp [depth], hdepth toks p h, fun hd => ?_⟩
    have := (run_inv table toks init p inv_init h).1.2 hd
    simp [depth, this]
  · intro toks p h
    simp only [GSRTFparse] at h
    cases hr : run table init toks with
    | error e => simp [hr] at h
    | ok q =>
      simp only [hr, finish] at h
      split at h
      · cases h
      · split at h
        · rename_i hs
          cases h
          have hq : q.stack = [] := List.isEmpty_iff.mp hs
          have hd := hdepth toks q hr
          refine ⟨rfl, ?_, ?_⟩
          · simp [depth, hq]
          · rw [← hd]
            simp [depth, hq]
        · cases h
  · intro pre post p h h0
    have hs : p.stack = [] := by
      simp only [depth] at h0
      exact List.length_eq_zero.mp (by exact_mod_cast h0)
    simp only [GSRTFparse, run_append, h, run, step, closeGroup, hs, ScopeStack.pop]
  · intro toks p h hpos
    have hne : p.stack ≠ [] := by
      intro hs
      simp [depth, hs] at hpos
    have hpre : p.state ≠ .Preamble := fun hp =>
      hne ((run_inv table toks init p inv_init h).1.1 hp)
    have hemp : p.stack.isEmpty = false := by
      cases hs : p.stack with
      | nil => exact absurd hs hne
      | cons a rest => rfl
    simp [GSRTFparse, h, finish, hpre, hemp]

/-- C3: for every directive table, an input whose first token is not the document-start control
word (the empty input included) is rejected: the parse fails, with `UnbalancedGroup` when the
first token is a group close and with `MissingStart` otherwise. -/
theorem missing_start_rejected (table : DirectiveTable) (toks : List Token)
    (h : ∀ t, toks.head? = some t → isStart table t = false) :
    GSRTFparse table toks =
      .error (if toks.head? = some .GroupClose then .UnbalancedGroup else .MissingStart) := by
  cases toks with
  | nil => rfl
  | cons t ts =>
    have ht := h t rfl
    cases t with
    | GroupClose => rfl
    | GroupOpen => rfl
    | TextRun bytes => rfl
    | EscapedChar b => rfl
    | ControlWord name param =>
      simp only [GSRTFparse, run, step, init, ht]
      simp

end ParserClaims

section FragmentClaims

open Parser

theorem run_entry (table : DirectiveTable) (nr ng nb : String) (c : Color) (p : Parser)
    (hr : table nr = some (.ColorChannel .red)) (hg : table ng = some (.ColorChannel .green))
    (hb : table nb = some (.ColorChannel .blue)) (hs : p.state = .InColorTable)
    (hc : p.curColor = {}) :
    ∃ q, run table p (entryTokens nr ng nb c) = .ok q ∧
      q.colors = p.colors ++ [c] ∧ q.state = .InColorTable ∧ q.curColor = {} := by
  cases c with
  | mk r g b =>
    refine ⟨{ p with afterOpen := false, colors := p.colors ++ [⟨r, g, b⟩], curColor := {} },
      ?_, rfl, hs, rfl⟩
    simp [entryTokens, run, step, hs, dispatch, hr, hg, hb, text, colorByte, hc, setChannel]

/-- C5: in the color table every semicolon-terminated entry appends one (red, green, blue) triple,
in stream order; the group `{\colortbl;\red255\green0\blue0;}` yields the table whose
index 0 is the empty entry and whose index 1 is (255,0,0), and a run whose foreground color index
is 1 resolves to that triple. -/
theorem color_table_entries :
    (∀ (table : DirectiveTable) (nr ng nb : String) (es : List Color) (p : Parser),
        table nr = some (.ColorChannel .red) → table ng = some (.ColorChannel .green) →
        table nb = some (.ColorChannel .blue) → p.state = .InColorTable → p.curColor = {} →
        ∃ q, run table p (entriesTokens nr ng nb es) = .ok q ∧
          q.colors = p.colors ++ es ∧ q.state = .InColorTable ∧ q.curColor = {}) ∧
      colorsOf (runFragment specTable "\x7b\\colortbl;\\red255\\green0\\blue0;\x7d") =
        some [{}, { red := 255, green := 0, blue := 0 }] ∧
      lookupColor [{}, { red := 255, green := 0, blue := 0 }] 1 =
        some { red := 255, green := 0, blue := 0 } ∧
      (∀ r : Run, r.attrs.fgColor = 1 →
        r.foreground [{}, { red := 255, green := 0, blue := 0 }] =
          { red := 255, green := 0, blue := 0 }) ∧
      foregrounds
          (runFragment specTable "\x7b\\colortbl;\\red255\\green0\\blue0;\x7d\\cf1 x") =
        some [(['x'.toNat], { red := 255, green := 0, blue := 0 })] := by
  refine ⟨?_, by decide, rfl, ?_, by decide⟩
  · intro table nr ng nb es
    induction es with
    | nil =>
      intro p _ _ _ hs hc
      exact ⟨p, rfl, by simp, hs, hc⟩
    | cons c cs ih =>
      intro p hr hg hb hs hc
      obtain ⟨p1, h1, hcol, hs1, hc1⟩ := run_entry table nr ng nb c p hr hg hb hs hc
      obtain ⟨q, h2, hq, hs2, hc2⟩ := ih p1 hr hg hb hs1 hc1
      refine ⟨q, ?_, ?_, hs2, hc2⟩
      · simp only [entriesTokens, run_append, h1]
        exact h2
      · rw [hq, hcol]
        simp
  · intro r h
    simp [Run.foreground, resolveColor, lookupColor, h]

end FragmentClaims

section Witnesses

open Parser

/-- The theorem of C2 at concrete inputs: after the start word, `{ } }` fails at its excess close
and `{` fails at the end of input, both with `UnbalancedGroup`, while `{ a }` is accepted in
`Done` at depth 0. -/
theorem depth_and_unbalanced_groups_witness :
    GSRTFparse specTable
        ([.ControlWord "rtf" (some 1), .GroupOpen, .GroupClose] ++ .GroupClose :: []) =
        .error .UnbalancedGroup ∧
      GSRTFparse specTable [.ControlWord "rtf" (some 1), .GroupOpen] = .error .UnbalancedGroup ∧
      (∃ p, GSRTFparse specTable
          [.ControlWord "rtf" (some 1), .GroupOpen, .TextRun ['a'], .GroupClose] = .ok p ∧
        p.state = .Done ∧ p.depth = 0) :=
  ⟨(depth_and_unbalanced_groups specTable).2.2.1
      [.ControlWord "rtf" (some 1), .GroupOpen, .GroupClose] [] _ rfl rfl,
   (depth_and_unbalanced_groups specTable).2.2.2
      [.ControlWord "rtf" (some 1), .GroupOpen] _ rfl (by decide),
   ⟨_, rfl,
    ((depth_and_unbalanced_groups specTable).2.1
      [.ControlWord "rtf" (some 1), .GroupOpen, .TextRun ['a'], .GroupClose] _ rfl).1,
    ((depth_and_unbalanced_groups specTable).2.1
      [.ControlWord "rtf" (some 1), .GroupOpen, .TextRun ['a'], .GroupClose] _ rfl).2.1⟩⟩

/-- The theorem of C3 at a concrete input: a stream that opens a group before the start word is
rejected with `MissingStart`. -/
theorem missing_start_rejected_witness :
    (∀ t, [Token.GroupOpen, .ControlWord "rtf" (some 1), .GroupClose].head? = some t →
        isStart specTable t = false) ∧
      GSRTFparse specTable [.GroupOpen, .ControlWord "rtf" (some 1), .GroupClose] =
        .error .MissingStart :=
  ⟨by intro t h; cases h; rfl,
   missing_start_rejected specTable [.GroupOpen, .ControlWord "rtf" (some 1), .GroupClose]
     (by intro t h; cases h; rfl)⟩

/-- The theorem of C5 at a concrete input: two entries read in the color table are appended in
stream order. -/
theorem color_table_entries_witness :
    ∃ q, run specTable { inBody with state := .InColorTable }
        (entriesTokens "red" "green" "blue"
          [{ red := 255, green := 0, blue := 0 }, { red := 0, green := 0, blue := 255 }]) =
          .ok q ∧
      q.colors = [{ red := 255, green := 0, blue := 0 }, { red := 0, green := 0, blue := 255 }] := by
  obtain ⟨q, h1, h2, -, -⟩ :=
    color_table_entries.1 specTable "red" "green" "blue"
      [{ red := 255, green := 0, blue := 0 }, { red := 0, green := 0, blue := 255 }]
      { inBody with state := .InColorTable } rfl rfl rfl rfl rfl
  exact ⟨q, h1, h2⟩

end Witnesses

end RTF
